import Mathlib

/-!
Verification development for the `langchain-rag-chatbot` repository.

The Python sources are shallowly embedded as Lean definitions:
pure functions become Lean functions, stateful methods become explicit
state-passing functions, and calls to external services (the OpenAI
language model, the embedding service, the Chroma similarity search)
are modelled as `Except`-valued outcome parameters supplied by the
environment, matching the `try`/`except` structure of the code.
-/

namespace RagChatbot

/-- A conversation turn: tagged human/assistant text, mirroring
`langchain.schema.HumanMessage` / `AIMessage` as stored in
`ConversationBufferMemory.chat_memory.messages`. -/
inductive Turn where
  | human (text : String)
  | ai (text : String)
deriving DecidableEq, Repr

/-- Whether a memory log is a strict human/assistant alternation
starting with a human turn (and hence of even length when complete). -/
def alternatesFromHuman : List Turn → Bool
  | [] => true
  | Turn.human _ :: Turn.ai _ :: rest => alternatesFromHuman rest
  | _ => false

/-- A retrieved document chunk as seen by `rag_chain.py`: page content
plus the `source` metadata entry (`doc.metadata.get('source', ...)`). -/
structure Doc where
  page_content : String
  source : String
deriving DecidableEq, Repr

/-! ## RAGChain (src/src/rag_chain.py) -/

/-- Mutable state of a `RAGChain` instance: whether `_setup_chain`
succeeded (`self.chain` non-None) and the conversation memory
(`self.memory.chat_memory.messages`). -/
structure RAGState where
  chainOk : Bool
  memory : List Turn
deriving DecidableEq, Repr

/-- Result dictionary returned by `RAGChain.ask`: keys `answer`,
`sources`, and either `context_docs` (success) or `error` (failure). -/
structure AskResult where
  answer : String
  sources : List String
  context_docs : Option Nat
  error : Option String
deriving DecidableEq, Repr

/-- `RAGChain.ask` (rag_chain.py lines 119-155).

`searchOutcome` is the outcome of `self.doc_processor.search_documents`
(which itself never raises: it catches internally, see
`search_documents` below — so at this call site it is a plain list),
and `chainOutcome` is the outcome of `self.chain.invoke(question)`,
covering both the retriever step inside the chain and the
language-model invocation; an exception from either lands in the
single `except` block of `ask`. -/
def RAGChain.ask (st : RAGState) (question : String)
    (relevant_docs : List Doc) (chainOutcome : Except String String) :
    AskResult × RAGState :=
  if st.chainOk = false then
    ({ answer := "❌ RAG chain not properly initialized"
       sources := []
       context_docs := none
       error := some "Chain initialization failed" }, st)
  else
    match chainOutcome with
    | Except.error e =>
        ({ answer := "Sorry, I encountered an error while processing your question."
           sources := []
           context_docs := none
           error := some ("Error generating answer: " ++ e) }, st)
    | Except.ok answer =>
        ({ answer := answer
           sources := relevant_docs.map Doc.source
           context_docs := some relevant_docs.length
           error := none },
         { st with memory := st.memory ++ [Turn.human question, Turn.ai answer] })

/-- `RAGChain.clear_memory` (rag_chain.py lines 170-173). -/
def RAGChain.clear_memory (st : RAGState) : RAGState :=
  { st with memory := [] }

/-! ## ChatbotAgent (src/src/chatbot_agent.py) -/

/-- Mutable state of a `ChatbotAgent`: whether `_setup_agent` succeeded
(`self.agent_executor` non-None), the agent's own conversation memory,
and the embedded `RAGChain` instance (`self.rag_chain`), which holds a
second, separate memory. -/
structure AgentState where
  executorOk : Bool
  memory : List Turn
  rag : RAGState
deriving DecidableEq, Repr

/-- Result dictionary of `ChatbotAgent.chat`: key `response`, plus
`intermediate_steps` on success or `error` on failure. -/
structure ChatResult where
  response : String
  intermediate_steps : List (String × String × String)
  error : Option String
deriving DecidableEq, Repr

/-- Outcome of `self.agent_executor.invoke({"input": message})`:
either the result dictionary (output text and recorded intermediate
steps) or a raised exception. -/
inductive InvokeOutcome where
  | ok (output : String) (steps : List (String × String × String))
  | raised (msg : String)

/-- `ChatbotAgent.chat` (chatbot_agent.py lines 145-168).

The memory bookkeeping of `AgentExecutor` is the behaviour specified
in §4.4/§4.5 of the design: on a successful `invoke` the executor's
`ConversationBufferMemory` saves exactly one human turn (the input)
and one assistant turn (the output); when `invoke` raises, no turns
are saved. -/
def ChatbotAgent.chat (st : AgentState) (message : String)
    (outcome : InvokeOutcome) : ChatResult × AgentState :=
  if st.executorOk = false then
    ({ response := "❌ Agent not properly initialized"
       intermediate_steps := []
       error := some "Agent setup failed" }, st)
  else
    match outcome with
    | InvokeOutcome.ok output steps =>
        ({ response := output
           intermediate_steps := steps
           error := none },
         { st with memory := st.memory ++ [Turn.human message, Turn.ai output] })
    | InvokeOutcome.raised e =>
        ({ response := "Sorry, I encountered an error while processing your message. Please try again."
           intermediate_steps := []
           error := some ("Error processing message: " ++ e) }, st)

/-- `ChatbotAgent.clear_memory` (chatbot_agent.py lines 183-188):
clears the agent memory and also the RAG chain memory. -/
def ChatbotAgent.clear_memory (st : AgentState) : AgentState :=
  { st with memory := [], rag := RAGChain.clear_memory st.rag }

/-- Run a sequence of successful `chat` calls; each element of `calls`
supplies the user message and the executor's successful output and
steps. -/
def runChats (st : AgentState) : List (String × String) → AgentState
  | [] => st
  | (msg, out) :: rest =>
      runChats (ChatbotAgent.chat st msg (InvokeOutcome.ok out [])).2 rest

/-- `_create_rag_tool.rag_query` (chatbot_agent.py lines 55-77): the
knowledge-base tool body, wrapping `RAGChain.ask`'s result dictionary.
`askOutcome` is the outcome of `self.rag_chain.ask(query)`: either the
returned dictionary or a raised exception, which the `except` block
converts to an error-message string. The function is total: it always
returns a string and never propagates an exception. -/
def rag_query (askOutcome : Except String AskResult) : String :=
  match askOutcome with
  | Except.ok result =>
      let answer := result.answer
      let sources := result.sources
      if sources.isEmpty then answer
      else answer ++ "\n\nSources: " ++ String.intercalate ", " sources
  | Except.error e => "Error querying knowledge base: " ++ e

/-! ## Character-list utilities shared by the splitter and the data tools -/

/-- Index of the first occurrence of `needle` as a contiguous sublist of
`hay` (leftmost match), or `none`; the model of `re.search` /
`re.split` position finding for a literal (escaped) pattern. -/
def firstOccur (needle : List Char) : List Char → Option Nat
  | [] => none
  | c :: rest =>
      if needle.isPrefixOf (c :: rest) then some 0
      else (firstOccur needle rest).map (· + 1)

/-- Whether `needle` occurs in `hay`: `re.search(re.escape(needle), hay)`
for a non-empty literal needle, and Python's `needle in hay` test. -/
def occursIn (needle hay : List Char) : Bool :=
  (firstOccur needle hay).isSome

/-- Python `str.lower()` restricted to the character-wise case mapping. -/
def lowerChars (s : String) : List Char :=
  s.toList.map Char.toLower

/-! ## Text splitting (`RecursiveCharacterTextSplitter`, configured in
document_processor.py lines 37-42 with `chunk_size=1000`,
`chunk_overlap=200`, `length_function=len`,
`separators=["\n\n", "\n", " ", ""]`; `keep_separator=True` is the
class default). The splitter itself is LangChain library code invoked
by `DocumentProcessor.split_documents`; it is embedded here in full
from its `_split_text` / `_merge_splits` / `_split_text_with_regex`
algorithm. Texts are `List Char` so that `len`-based arithmetic is
explicit. -/

def chunk_size : Nat := 1000

def chunk_overlap : Nat := 200

/-- Fuelled splitting of `text` at each leftmost non-overlapping
occurrence of the non-empty separator `sep`, returning the pieces
between occurrences (`re.split` without the capture group). Fuel
`text.length` always suffices since every step consumes at least one
character. -/
def splitOnSepF (sep : List Char) : Nat → List Char → List (List Char)
  | 0, text => [text]
  | Nat.succ fuel, text =>
      match firstOccur sep text with
      | none => [text]
      | some i => text.take i :: splitOnSepF sep fuel (text.drop (i + sep.length))

/-- `re.split(sep, text)` for a non-empty literal separator. -/
def splitOnSep (sep text : List Char) : List (List Char) :=
  splitOnSepF sep text.length text

/-- `_split_text_with_regex(text, separator, keep_separator=True)`:
an empty separator yields the character list; otherwise each separator
occurrence is reattached to the front of the following piece; empty
strings are dropped. -/
def splitWithSep (text sep : List Char) : List (List Char) :=
  (if sep.isEmpty then text.map (fun c => [c])
   else
     match splitOnSep sep text with
     | [] => []
     | p :: ps => p :: ps.map (fun q => sep ++ q)).filter (fun s => !s.isEmpty)

/-- The separator-selection loop at the top of
`RecursiveCharacterTextSplitter._split_text`: walk the separator list;
an empty separator is chosen immediately (with no remaining
separators); otherwise the first separator occurring in `text` is
chosen together with the remaining suffix; if none matches, the last
separator is the default with no remaining separators. -/
def pickSepGo (text : List Char) (dflt : List Char) :
    List (List Char) → List Char × List (List Char)
  | [] => (dflt, [])
  | s :: rest =>
      if s.isEmpty then ([], [])
      else if occursIn s text then (s, rest)
      else pickSepGo text dflt rest

/-- Separator selection: `separator = separators[-1]` default, then the
scan of `_split_text`. -/
def pickSep (text : List Char) (seps : List (List Char)) :
    List Char × List (List Char) :=
  pickSepGo text (seps.getLastD []) seps

/-- Python default whitespace for `str.strip()`. -/
def isPyWhitespace (c : Char) : Bool :=
  c = ' ' || c = '\n' || c = '\t' || c = '\r' || c = '\x0b' || c = '\x0c'

/-- Python `str.strip()`. -/
def pyStrip (l : List Char) : List Char :=
  ((l.dropWhile isPyWhitespace).reverse.dropWhile isPyWhitespace).reverse

/-- `TextSplitter._join_docs`: join with the separator, strip
whitespace, and drop the result when empty. -/
def joinDocs (sep : List Char) (docs : List (List Char)) : Option (List Char) :=
  let text := pyStrip (List.intercalate sep docs)
  if text.isEmpty then none else some text

/-- Total character length of a list of pieces. -/
def sumLen (l : List (List Char)) : Nat :=
  (l.map List.length).sum

/-- The `while` pop loop of `TextSplitter._merge_splits`: drop leading
pieces of the running window while the running total exceeds the
overlap, or while the next piece of length `dlen` would not fit in the
chunk size. (Python indexes `current_doc[0]`, so the loop body
presupposes a non-empty window; on the empty window the loop guard is
false in every reachable state because the running total is then 0.) -/
def popLoop (cs ov sl dlen : Nat) : List (List Char) → Nat → List (List Char) × Nat
  | [], total => ([], total)
  | d0 :: ds, total =>
      if total > ov ∨ (total + dlen + sl > cs ∧ 0 < total) then
        popLoop cs ov sl dlen ds (total - (d0.length + (if ds.isEmpty then 0 else sl)))
      else (d0 :: ds, total)

/-- The main loop of `TextSplitter._merge_splits`: greedily pack pieces
into a window of at most `cs` characters, flushing the joined window as
a chunk when the next piece would overflow and retaining a suffix of at
most `ov` characters as overlap. -/
def mergeGo (cs ov : Nat) (sep : List Char) :
    List (List Char) → List (List Char) → List (List Char) → Nat → List (List Char)
  | [], docs, current, _ =>
      (match joinDocs sep current with
       | some d => docs ++ [d]
       | none => docs)
  | d :: rest, docs, current, total =>
      let sl := sep.length
      if total + d.length + (if current.isEmpty then 0 else sl) > cs then
        let docs2 :=
          if current.isEmpty then docs
          else
            match joinDocs sep current with
            | some doc => docs ++ [doc]
            | none => docs
        let pt :=
          if current.isEmpty then (current, total)
          else popLoop cs ov sl d.length current total
        mergeGo cs ov sep rest docs2 (pt.1 ++ [d])
          (pt.2 + d.length + (if pt.1.isEmpty then 0 else sl))
      else
        mergeGo cs ov sep rest docs (current ++ [d])
          (total + d.length + (if current.isEmpty then 0 else sl))

/-- `TextSplitter._merge_splits(splits, separator)`. -/
def mergeSplits (cs ov : Nat) (sep : List Char) (splits : List (List Char)) : List (List Char) :=
  mergeGo cs ov sep splits [] [] 0

/-- The split-processing loop of
`RecursiveCharacterTextSplitter._split_text`: buffer pieces shorter
than the chunk size, merging a full buffer whenever an oversized piece
is met; an oversized piece is split recursively with the remaining
separators (`recur = some f`) or appended whole when no separators
remain (`recur = none`). The merge separator is `""` because
`keep_separator=True`. -/
def processLoop (cs ov : Nat) (recur : Option (List Char → List (List Char))) :
    List (List Char) → List (List Char) → List (List Char)
  | [], good =>
      if good.isEmpty then [] else mergeSplits cs ov [] good
  | s :: rest, good =>
      if s.length < cs then processLoop cs ov recur rest (good ++ [s])
      else
        (if good.isEmpty then [] else mergeSplits cs ov [] good)
        ++ (match recur with
            | some f => f s
            | none => [s])
        ++ processLoop cs ov recur rest []

/-- `RecursiveCharacterTextSplitter._split_text(text, separators)`,
fuelled by the length of the separator list: the recursive call always
receives a strictly shorter separator list, so fuel
`separators.length` suffices and the fuel-exhaustion branch is never
reached from `split_text` below. -/
def splitTextAuxF (cs ov : Nat) : Nat → List (List Char) → List Char → List (List Char)
  | 0, _, text => [text]
  | Nat.succ fuel, seps, text =>
      let p := pickSep text seps
      processLoop cs ov
        (if p.2.isEmpty then none else some (fun s => splitTextAuxF cs ov fuel p.2 s))
        (splitWithSep text p.1) []

/-- The configured separator list `["\n\n", "\n", " ", ""]`. -/
def theSeparators : List (List Char) :=
  [['\n', '\n'], ['\n'], [' '], []]

/-- `split_text` of the splitter configured in
`DocumentProcessor.__init__`: chunk size 1000, overlap 200. -/
def split_text (text : List Char) : List (List Char) :=
  splitTextAuxF chunk_size chunk_overlap theSeparators.length theSeparators text

/-- `DocumentProcessor.split_documents` (document_processor.py lines
76-94) on a non-empty document list: each document's text is split and
every chunk carries a copy of the parent document's metadata. -/
def split_documents (docs : List Doc) : List Doc :=
  docs.flatMap fun d => (split_text d.page_content.toList).map fun c => ⟨String.mk c, d.source⟩

/-! ## DocumentProcessor vector-store lifecycle (src/src/document_processor.py) -/

/-- Mutable state of a `DocumentProcessor`: the contents persisted at
`persist_directory` (`none` when the directory does not exist), the
in-memory handle `self.vector_store`, and the chunks that
`load_documents` followed by `split_documents` produce from the
knowledge-base directory. A vector store is modelled by its indexed
chunk list (functional equivalence = same chunks); embedding vectors
are a 1:1 function of the chunks and are left implicit. -/
structure DPState where
  persisted : Option (List Doc)
  vector_store : Option (List Doc)
  sourceChunks : List Doc
deriving DecidableEq, Repr

/-- `DocumentProcessor.create_vector_store` (document_processor.py
lines 96-137). With no `documents` argument: when a persisted index
exists it is loaded (the embedding service is not consulted);
otherwise the source documents are loaded, split, embedded and
persisted. With an explicit `documents` argument the load-existing
check is skipped and the store is always recomputed. An empty chunk
list yields `None` and leaves the state untouched. The
load-failure fallback (`except` at line 108) and embedding-service
failure (`except` at line 135) are not exercised here: both external
calls are modelled as succeeding. -/
def create_vector_store (st : DPState) (documents : Option (List Doc)) :
    Option (List Doc) × DPState :=
  match documents with
  | none =>
      match st.persisted with
      | some store => (some store, { st with vector_store := some store })
      | none =>
          let docs := st.sourceChunks
          if docs.isEmpty then (none, st)
          else (some docs, { st with vector_store := some docs, persisted := some docs })
  | some docs =>
      if docs.isEmpty then (none, st)
      else (some docs, { st with vector_store := some docs, persisted := some docs })

/-- `DocumentProcessor.search_documents` (document_processor.py lines
139-156). `simOutcome` is the outcome of
`self.vector_store.similarity_search(query, k=k)`. Returns the list
handed back to the caller, the updated state, and the lines printed to
stdout; the caller receives only the first component. -/
def search_documents (st : DPState) (query : String)
    (simOutcome : Except String (List Doc)) :
    List Doc × DPState × List String :=
  let st1 := if st.vector_store.isNone then (create_vector_store st none).2 else st
  match st1.vector_store with
  | none => ([], st1, ["❌ Unable to perform search - no vector store available"])
  | some _ =>
      match simOutcome with
      | Except.ok results =>
          (results, st1,
           ["🔍 Found " ++ toString results.length
             ++ " relevant document chunks for query: \x27" ++ query ++ "\x27"])
      | Except.error e => ([], st1, ["❌ Error searching documents: " ++ e])

/-! ## Agent tool loop -/

/-- One decision of the function-calling language model: either a final
textual answer or a request to invoke a named tool on a string
argument. -/
inductive ModelStep where
  | finish (answer : String)
  | toolCall (name arg : String)

/-- The iteration bound configured on the `AgentExecutor`
(chatbot_agent.py line 136). -/
def max_iterations : Nat := 3

/-- Modelled from the spec: the `AgentExecutor` tool loop itself is
LangChain library code, not part of this repository; §4.4 of the
design describes it as a Selecting/Executing loop that feeds each
tool's string result back to the model and is bounded by
`max_iterations`, exceeding which forces termination with the
executor's fixed early-stop answer. `model` maps the intermediate
steps recorded so far to the model's next decision; `tools` maps a
tool name and argument to the tool's string result. The function is
structurally recursive on the remaining iteration budget, so every
turn terminates. -/
def agentLoop (tools : String → String → String)
    (model : List (String × String × String) → ModelStep) :
    Nat → List (String × String × String) → String × List (String × String × String)
  | 0, steps => ("Agent stopped due to iteration limit or time limit.", steps)
  | Nat.succ fuel, steps =>
      match model steps with
      | ModelStep.finish ans => (ans, steps)
      | ModelStep.toolCall name arg =>
          agentLoop tools model fuel (steps ++ [(name, arg, tools name arg)])

/-- `self.agent_executor.invoke({"input": message})` run with the
configured iteration bound and an initially empty scratchpad. -/
def agent_invoke (tools : String → String → String)
    (model : List (String × String × String) → ModelStep) :
    String × List (String × String × String) :=
  agentLoop tools model max_iterations []

/-! ## DataTools structured queries (src/src/data_tools.py) -/

/-- A row of the `employees` table (the columns the query templates
touch). -/
structure Employee where
  name : String
  department : String
  salary : Int
deriving DecidableEq, Repr

/-- A row of the `customers` table. -/
structure Customer where
  industry : String
deriving DecidableEq, Repr

/-- The SQLite database at `data/company.db`. -/
structure Database where
  employees : List Employee
  customers : List Customer
deriving DecidableEq, Repr

/-- The fallback string of `DataTools.execute_sql_query` for a query
description matching none of the keyword templates (data_tools.py
line 215). -/
def couldNotUnderstandMsg (query_description : String) : String :=
  "I couldn\x27t understand how to query for: \x27" ++ query_description
    ++ "\x27. Try asking about employee counts, salary statistics, or department/industry lists."

/-- Whether `query_description` matches one of the six fixed keyword
templates of `execute_sql_query` (data_tools.py lines 202-213), in
the code's order. -/
def matchesTemplate (query_description : String) : Bool :=
  let ql := lowerChars query_description
  (occursIn "count".toList ql && occursIn "employee".toList ql)
  || (occursIn "count".toList ql && occursIn "customer".toList ql)
  || (occursIn "average salary".toList ql || occursIn "avg salary".toList ql)
  || (occursIn "highest salary".toList ql || occursIn "max salary".toList ql)
  || (occursIn "departments".toList ql && occursIn "list".toList ql)
  || (occursIn "industries".toList ql && occursIn "list".toList ql)

/-- Deduplicated department list, as `SELECT DISTINCT department`. -/
def distinctDepartments (db : Database) : List String :=
  (db.employees.map Employee.department).dedup

/-- Deduplicated industry list, as `SELECT DISTINCT industry`. -/
def distinctIndustries (db : Database) : List String :=
  (db.customers.map Customer.industry).dedup

/-- `DataTools.execute_sql_query` (data_tools.py lines 188-227): keyword
dispatch to a fixed SQL template, `"Result: <value>"` formatting for a
single-cell result, and the fixed could-not-understand fallback for an
unmatched description. The numeric rendering of the AVG/MAX templates
abstracts pandas float formatting (no claim exercises those branches);
the dispatch conditions and the count/fallback branches are embedded
exactly. The function is total: an unmatched description returns the
fallback string before any database access. -/
def execute_sql_query (db : Option Database) (query_description : String) : String :=
  match db with
  | none => "Database not available."
  | some db =>
      let ql := lowerChars query_description
      if occursIn "count".toList ql && occursIn "employee".toList ql then
        "Result: " ++ toString db.employees.length
      else if occursIn "count".toList ql && occursIn "customer".toList ql then
        "Result: " ++ toString db.customers.length
      else if occursIn "average salary".toList ql || occursIn "avg salary".toList ql then
        "Result: " ++ toString ((db.employees.map Employee.salary).sum)
          ++ "/" ++ toString db.employees.length
      else if occursIn "highest salary".toList ql || occursIn "max salary".toList ql then
        String.intercalate "\n" ((db.employees.map Employee.name).take 1)
      else if occursIn "departments".toList ql && occursIn "list".toList ql then
        String.intercalate "\n" (distinctDepartments db)
      else if occursIn "industries".toList ql && occursIn "list".toList ql then
        String.intercalate "\n" (distinctIndustries db)
      else couldNotUnderstandMsg query_description

/-! ## The RAG tool inside the agent -/

/-- A call of `self.rag_chain.ask` made from inside the agent (through
the knowledge-base tool): it updates the RAG chain's own memory inside
the agent's composite state and leaves the agent's memory alone. -/
def ChatbotAgent.askViaRAG (st : AgentState) (question : String)
    (relevant_docs : List Doc) (chainOutcome : Except String String) :
    AskResult × AgentState :=
  let r := RAGChain.ask st.rag question relevant_docs chainOutcome
  (r.1, { st with rag := r.2 })

/-! ## Concrete document for the overlap analysis of the splitter -/

/-- A letter-indexed word of 149 identical characters. -/
def exWord (c : Char) : List Char :=
  List.replicate 149 c

/-- A 1049-character document: seven 149-character words separated by
single spaces. -/
def exText : List Char :=
  List.intercalate [' ']
    [exWord 'a', exWord 'b', exWord 'c', exWord 'd', exWord 'e', exWord 'f', exWord 'g']

/-! # Theorems -/

/-! ## Conversation-memory lemmas -/

lemma runChats_eq (calls : List (String × String)) :
    ∀ st : AgentState, st.executorOk = true →
      runChats st calls
        = { st with memory := st.memory
              ++ calls.flatMap (fun c => [Turn.human c.1, Turn.ai c.2]) } := by
  induction calls with
  | nil => intro st _; simp [runChats]
  | cons c rest ih =>
      intro st hok
      obtain ⟨msg, out⟩ := c
      have hchat : (ChatbotAgent.chat st msg (InvokeOutcome.ok out [])).2
          = { st with memory := st.memory ++ [Turn.human msg, Turn.ai out] } := by
        simp [ChatbotAgent.chat, hok]
      have hok2 : ({ st with memory := st.memory ++ [Turn.human msg, Turn.ai out] }
          : AgentState).executorOk = true := hok
      simp only [runChats, hchat, ih _ hok2]
      simp

lemma alternates_pairs (calls : List (String × String)) :
    alternatesFromHuman (calls.flatMap fun c => [Turn.human c.1, Turn.ai c.2]) = true := by
  induction calls with
  | nil => rfl
  | cons c rest ih => simpa [alternatesFromHuman] using ih

lemma length_pairs (calls : List (String × String)) :
    (calls.flatMap fun c => [Turn.human c.1, Turn.ai c.2]).length = 2 * calls.length := by
  induction calls with
  | nil => rfl
  | cons c rest ih => simp [ih]; ring

/-- C1: after N successful `chat` calls on an operational `ChatbotAgent`
whose memory starts empty, the agent's conversation memory holds exactly
2N turns in strict human/assistant alternation starting with a human
turn; and a `chat` call whose executor invocation raises leaves the
memory length unchanged (it leaves the memory itself unchanged). -/
theorem chat_memory_invariant (calls : List (String × String)) (st0 : AgentState)
    (hok : st0.executorOk = true) (hmem : st0.memory = []) :
    (runChats st0 calls).memory.length = 2 * calls.length
    ∧ alternatesFromHuman (runChats st0 calls).memory = true
    ∧ ∀ (st : AgentState) (msg e : String),
        ((ChatbotAgent.chat st msg (InvokeOutcome.raised e)).2).memory = st.memory := by
  refine ⟨?_, ?_, ?_⟩
  · rw [runChats_eq calls st0 hok]
    show (st0.memory ++ calls.flatMap fun c => [Turn.human c.1, Turn.ai c.2]).length
        = 2 * calls.length
    rw [hmem, List.nil_append]
    exact length_pairs calls
  · rw [runChats_eq calls st0 hok]
    show alternatesFromHuman
        (st0.memory ++ calls.flatMap fun c => [Turn.human c.1, Turn.ai c.2]) = true
    rw [hmem, List.nil_append]
    exact alternates_pairs calls
  · intro st msg e
    by_cases h : st.executorOk = false <;> simp [ChatbotAgent.chat, h]

/-- Witness for C1 at two concrete successful calls. -/
theorem chat_memory_invariant_witness :
    (runChats ⟨true, [], ⟨true, []⟩⟩ [("q1", "a1"), ("q2", "a2")]).memory.length
        = 2 * [("q1", "a1"), ("q2", "a2")].length
    ∧ alternatesFromHuman (runChats ⟨true, [], ⟨true, []⟩⟩ [("q1", "a1"), ("q2", "a2")]).memory
        = true
    ∧ ∀ (st : AgentState) (msg e : String),
        ((ChatbotAgent.chat st msg (InvokeOutcome.raised e)).2).memory = st.memory :=
  chat_memory_invariant [("q1", "a1"), ("q2", "a2")] ⟨true, [], ⟨true, []⟩⟩ rfl rfl

/-- C2: on an operational `RAGChain`, a failure of the chain invocation
(retrieval or language model) inside `ask` is caught: the answer is the
fixed apology string, the failure is reported in the `error` field of
the result, and the conversation memory is unchanged. -/
theorem ask_failure_semantics (st : RAGState) (q : String) (docs : List Doc) (e : String)
    (hok : st.chainOk = true) :
    (RAGChain.ask st q docs (Except.error e)).1.answer
        = "Sorry, I encountered an error while processing your question."
    ∧ (RAGChain.ask st q docs (Except.error e)).1.error
        = some ("Error generating answer: " ++ e)
    ∧ (RAGChain.ask st q docs (Except.error e)).2.memory = st.memory := by
  simp [RAGChain.ask, hok]

/-- Witness for C2 at a concrete failing call. -/
theorem ask_failure_semantics_witness :
    (RAGChain.ask ⟨true, []⟩ "q" [] (Except.error "boom")).1.answer
        = "Sorry, I encountered an error while processing your question."
    ∧ (RAGChain.ask ⟨true, []⟩ "q" [] (Except.error "boom")).1.error
        = some ("Error generating answer: " ++ "boom")
    ∧ (RAGChain.ask ⟨true, []⟩ "q" [] (Except.error "boom")).2.memory = ([] : List Turn) :=
  ask_failure_semantics ⟨true, []⟩ "q" [] "boom" rfl

/-- C3 counterexample: when two retrieved chunks carry the same source
identifier, the `sources` list returned by a successful `ask` contains
that identifier twice — the code at rag_chain.py line 140 builds the
list with a plain comprehension and never deduplicates, so the claimed
"no source identifier appears twice" fails. -/
theorem ask_sources_duplicate_counterexample :
    ¬ ((RAGChain.ask ⟨true, []⟩ "q" [⟨"text one", "a.md"⟩, ⟨"text two", "a.md"⟩]
          (Except.ok "ans")).1.sources.Nodup) := by
  decide

/-- C3 amended: a successful `ask` returns the source identifiers of
the retrieved chunks in retrieval order, one entry per retrieved chunk,
without deduplication (an identifier may appear more than once). -/
theorem ask_sources_retrieval_order (mem : List Turn) (q : String)
    (docs : List Doc) (ans : String) :
    (RAGChain.ask ⟨true, mem⟩ q docs (Except.ok ans)).1.sources = docs.map Doc.source := by
  simp [RAGChain.ask]

/-- C4: with no persisted index, building, then building again with no
explicit document argument, returns the same store and the same state
as the single build (the second call takes the load path); and whenever
a persisted index exists and no documents are passed, `create_vector_store`
returns exactly the persisted store, touching neither the source
documents nor the embedding service. -/
theorem create_vector_store_idempotent (st0 : DPState) (h : st0.persisted = none) :
    ((create_vector_store (create_vector_store st0 none).2 none).1
        = (create_vector_store st0 none).1)
    ∧ ((create_vector_store (create_vector_store st0 none).2 none).2
        = (create_vector_store st0 none).2)
    ∧ ∀ (st : DPState) (store : List Doc), st.persisted = some store →
        create_vector_store st none
          = (some store, { st with vector_store := some store }) := by
  refine ⟨?_, ?_, ?_⟩
  · obtain ⟨p, v, src⟩ := st0
    simp only at h
    subst h
    by_cases he : src.isEmpty <;> simp [create_vector_store, he]
  · obtain ⟨p, v, src⟩ := st0
    simp only at h
    subst h
    by_cases he : src.isEmpty <;> simp [create_vector_store, he]
  · intro st store hs
    simp [create_vector_store, hs]

/-- Witness for C4 at a concrete fresh state. -/
theorem create_vector_store_idempotent_witness :
    ((create_vector_store (create_vector_store ⟨none, none, [⟨"t", "s.md"⟩]⟩ none).2 none).1
        = (create_vector_store ⟨none, none, [⟨"t", "s.md"⟩]⟩ none).1)
    ∧ ((create_vector_store (create_vector_store ⟨none, none, [⟨"t", "s.md"⟩]⟩ none).2 none).2
        = (create_vector_store ⟨none, none, [⟨"t", "s.md"⟩]⟩ none).2)
    ∧ ∀ (st : DPState) (store : List Doc), st.persisted = some store →
        create_vector_store st none
          = (some store, { st with vector_store := some store }) :=
  create_vector_store_idempotent ⟨none, none, [⟨"t", "s.md"⟩]⟩ rfl

/-- C6 counterexample: when the similarity search raises, the value
returned to the caller of `search_documents` is the bare empty list —
identical to the value returned by a successful search with no results
— so no recoverable-error signal is surfaced to the caller (the error
is only printed to stdout). -/
theorem search_error_no_signal_counterexample :
    (search_documents ⟨some [⟨"t", "s.md"⟩], some [⟨"t", "s.md"⟩], []⟩ "q"
        (Except.error "boom")).1 = []
    ∧ (search_documents ⟨some [⟨"t", "s.md"⟩], some [⟨"t", "s.md"⟩], []⟩ "q"
        (Except.error "boom")).1
      = (search_documents ⟨some [⟨"t", "s.md"⟩], some [⟨"t", "s.md"⟩], []⟩ "q"
        (Except.ok [])).1 := by
  constructor <;> rfl

/-- C6 amended: with an initialized vector store, a search over an
index holding zero chunks returns the empty sequence (and by the
return type cannot be an error); a raising similarity search is caught,
an error line is printed, and the empty list is returned — the value
handed to the caller is indistinguishable from that of an empty
successful search, i.e. no error signal is surfaced in it. -/
theorem search_error_empty_result (st : DPState) (q e : String)
    (h : st.vector_store.isNone = false) :
    (search_documents st q (Except.error e)).1 = []
    ∧ (search_documents st q (Except.error e)).2.2
        = ["❌ Error searching documents: " ++ e]
    ∧ (search_documents st q (Except.ok [])).1 = []
    ∧ (search_documents st q (Except.error e)).1
        = (search_documents st q (Except.ok [])).1 := by
  cases hv : st.vector_store with
  | none => rw [hv] at h; simp at h
  | some store => refine ⟨?_, ?_, ?_, ?_⟩ <;> simp [search_documents, h, hv]

/-- Witness for C6 at a concrete state with a one-chunk store. -/
theorem search_error_empty_result_witness :
    (search_documents ⟨some [⟨"t", "s.md"⟩], some [⟨"t", "s.md"⟩], []⟩ "q"
        (Except.error "boom")).1 = []
    ∧ (search_documents ⟨some [⟨"t", "s.md"⟩], some [⟨"t", "s.md"⟩], []⟩ "q"
        (Except.error "boom")).2.2 = ["❌ Error searching documents: " ++ "boom"]
    ∧ (search_documents ⟨some [⟨"t", "s.md"⟩], some [⟨"t", "s.md"⟩], []⟩ "q"
        (Except.ok [])).1 = []
    ∧ (search_documents ⟨some [⟨"t", "s.md"⟩], some [⟨"t", "s.md"⟩], []⟩ "q"
        (Except.error "boom")).1
      = (search_documents ⟨some [⟨"t", "s.md"⟩], some [⟨"t", "s.md"⟩], []⟩ "q"
        (Except.ok [])).1 :=
  search_error_empty_result ⟨some [⟨"t", "s.md"⟩], some [⟨"t", "s.md"⟩], []⟩ "q" "boom" rfl

/-- C8 counterexample: the agent and the RAG chain each construct their
own `ConversationBufferMemory` (chatbot_agent.py line 47, rag_chain.py
line 44); a human turn appended by a successful `ask` through the RAG
chain is present in the RAG chain's memory but absent from the agent's
memory, so the memory is not a single shared log. -/
theorem memory_not_shared_counterexample :
    (Turn.human "q") ∈ ((ChatbotAgent.askViaRAG ⟨true, [], ⟨true, []⟩⟩ "q" []
        (Except.ok "ans")).2.rag.memory)
    ∧ (Turn.human "q") ∉ ((ChatbotAgent.askViaRAG ⟨true, [], ⟨true, []⟩⟩ "q" []
        (Except.ok "ans")).2.memory) := by
  decide

/-- C8 amended: the Agent and the Answer Chain each hold their own
separate conversation memory: a turn appended through the RAG chain's
`ask` never changes the agent's memory, a turn appended by the agent's
`chat` never changes the RAG chain's memory, and only the agent's
`clear_memory` resets both logs to empty. -/
theorem memories_separate (st : AgentState) (q : String) (docs : List Doc)
    (ans msg out : String) :
    ((ChatbotAgent.askViaRAG st q docs (Except.ok ans)).2.memory = st.memory)
    ∧ ((ChatbotAgent.chat st msg (InvokeOutcome.ok out [])).2.rag = st.rag)
    ∧ (ChatbotAgent.clear_memory st).memory = []
    ∧ (ChatbotAgent.clear_memory st).rag.memory = [] := by
  refine ⟨?_, ?_, ?_, ?_⟩
  · by_cases h : st.rag.chainOk = false <;>
      simp [ChatbotAgent.askViaRAG, RAGChain.ask, h]
  · by_cases h : st.executorOk = false <;> simp [ChatbotAgent.chat, h]
  · simp [ChatbotAgent.clear_memory]
  · simp [ChatbotAgent.clear_memory, RAGChain.clear_memory]

/-- C10: the knowledge-base tool body never raises: a raised exception
from the underlying `rag_chain.ask` is caught and converted into an
error-message string returned as the tool's ordinary string result
(so a knowledge-base failure cannot abort the agent's turn), and a
successful ask is formatted as the answer with an optional appended
source list. -/
theorem rag_tool_catches_exceptions (e : String) (r : AskResult) :
    rag_query (Except.error e) = "Error querying knowledge base: " ++ e
    ∧ rag_query (Except.ok r)
        = (if r.sources.isEmpty then r.answer
           else r.answer ++ "\n\nSources: " ++ String.intercalate ", " r.sources) :=
  ⟨rfl, rfl⟩

/-! ## Agent-loop lemmas -/

lemma agentLoop_steps_le (tools : String → String → String)
    (model : List (String × String × String) → ModelStep) :
    ∀ (fuel : Nat) (steps : List (String × String × String)),
      ((agentLoop tools model fuel steps).2).length ≤ steps.length + fuel := by
  intro fuel
  induction fuel with
  | zero => intro steps; simp [agentLoop]
  | succ f ih =>
      intro steps
      cases h : model steps with
      | finish ans => simp only [agentLoop, h]; omega
      | toolCall name arg =>
          have := ih (steps ++ [(name, arg, tools name arg)])
          simp only [agentLoop, h]
          simp at this
          omega

lemma agentLoop_always_tool (tools : String → String → String)
    (model : List (String × String × String) → ModelStep)
    (h : ∀ steps, ∃ n a, model steps = ModelStep.toolCall n a) :
    ∀ (fuel : Nat) (steps : List (String × String × String)),
      (agentLoop tools model fuel steps).1
        = "Agent stopped due to iteration limit or time limit." := by
  intro fuel
  induction fuel with
  | zero => intro steps; rfl
  | succ f ih =>
      intro steps
      obtain ⟨n, a, hm⟩ := h steps
      simp only [agentLoop, hm]
      exact ih _

/-- C5: for a model that always requests a tool call, an agent turn
invokes no more tools than the configured iteration bound
`max_iterations = 3` (the recorded intermediate steps, one per tool
invocation, number at most 3), the loop terminates (it is a total
function of its iteration budget), and the `chat` turn returns the
executor's non-empty forced-stop response. -/
theorem agent_loop_bounded (tools : String → String → String)
    (model : List (String × String × String) → ModelStep)
    (st : AgentState) (msg : String)
    (hok : st.executorOk = true)
    (h : ∀ steps, ∃ n a, model steps = ModelStep.toolCall n a) :
    (agent_invoke tools model).2.length ≤ max_iterations
    ∧ (ChatbotAgent.chat st msg
        (InvokeOutcome.ok (agent_invoke tools model).1 (agent_invoke tools model).2)).1.response
        ≠ "" := by
  constructor
  · have := agentLoop_steps_le tools model max_iterations []
    simpa [agent_invoke] using this
  · have hstop := agentLoop_always_tool tools model h max_iterations []
    have hresp : (ChatbotAgent.chat st msg
        (InvokeOutcome.ok (agent_invoke tools model).1 (agent_invoke tools model).2)).1.response
        = (agent_invoke tools model).1 := by
      simp [ChatbotAgent.chat, hok]
    rw [hresp, agent_invoke, hstop]
    decide

/-- Witness for C5: a model that requests the tool `"t"` on `"x"`
forever. -/
theorem agent_loop_bounded_witness :
    (agent_invoke (fun _ _ => "r") (fun _ => ModelStep.toolCall "t" "x")).2.length
        ≤ max_iterations
    ∧ (ChatbotAgent.chat ⟨true, [], ⟨true, []⟩⟩ "hi"
        (InvokeOutcome.ok (agent_invoke (fun _ _ => "r") (fun _ => ModelStep.toolCall "t" "x")).1
          (agent_invoke (fun _ _ => "r") (fun _ => ModelStep.toolCall "t" "x")).2)).1.response
        ≠ "" :=
  agent_loop_bounded (fun _ _ => "r") (fun _ => ModelStep.toolCall "t" "x")
    ⟨true, [], ⟨true, []⟩⟩ "hi" rfl (fun _ => ⟨"t", "x", rfl⟩)

/-- C9: against a database whose `employees` table has exactly 10 rows,
the structured-query tool answers `"count employees"` with the string
`"Result: 10"`; and for every description matching none of the six
keyword templates the tool returns the fixed could-not-understand
string (it returns normally rather than raising — the fallback is
produced before any database access). -/
theorem data_query_count_and_fallback (db : Database)
    (h10 : db.employees.length = 10) :
    execute_sql_query (some db) "count employees" = "Result: 10"
    ∧ ∀ q : String, matchesTemplate q = false →
        execute_sql_query (some db) q = couldNotUnderstandMsg q := by
  constructor
  · have h : execute_sql_query (some db) "count employees"
        = "Result: " ++ toString db.employees.length := rfl
    rw [h, h10]
    rfl
  · intro q hq
    simp only [matchesTemplate, Bool.or_eq_false_iff] at hq
    obtain ⟨⟨⟨⟨⟨h1, h2⟩, h3⟩, h4⟩, h5⟩, h6⟩ := hq
    simp only [execute_sql_query, h1, h2, h3.1, h3.2, h4.1, h4.2, h5, h6]
    simp

/-- Witness for C9 at a concrete ten-row employees table and the
unmatched description `"hello"`. -/
theorem data_query_count_and_fallback_witness :
    execute_sql_query (some ⟨List.replicate 10 ⟨"E", "D", 1⟩, []⟩) "count employees"
        = "Result: 10"
    ∧ ∀ q : String, matchesTemplate q = false →
        execute_sql_query (some ⟨List.replicate 10 ⟨"E", "D", 1⟩, []⟩) q
          = couldNotUnderstandMsg q :=
  data_query_count_and_fallback ⟨List.replicate 10 ⟨"E", "D", 1⟩, []⟩ (by decide)

/-! ## Splitter lemmas -/

lemma sumLen_nil : sumLen ([] : List (List Char)) = 0 := rfl

lemma sumLen_cons (d : List Char) (l : List (List Char)) :
    sumLen (d :: l) = d.length + sumLen l := by
  simp [sumLen]

lemma sumLen_append (l1 l2 : List (List Char)) :
    sumLen (l1 ++ l2) = sumLen l1 + sumLen l2 := by
  simp [sumLen]

lemma pyStrip_length_le (l : List Char) : (pyStrip l).length ≤ l.length := by
  have h1 : (List.dropWhile isPyWhitespace l).length ≤ l.length :=
    (List.dropWhile_sublist isPyWhitespace).length_le
  have h2 : (List.dropWhile isPyWhitespace (List.dropWhile isPyWhitespace l).reverse).length
      ≤ (List.dropWhile isPyWhitespace l).reverse.length :=
    (List.dropWhile_sublist isPyWhitespace).length_le
  simp only [pyStrip, List.length_reverse]
  simp only [List.length_reverse] at h2
  exact le_trans h2 h1

lemma intercalate_nil_eq_flatten :
    ∀ l : List (List Char), List.intercalate [] l = l.flatten := by
  intro l
  induction l with
  | nil => rfl
  | cons x t ih =>
      cases t with
      | nil => simp [List.intercalate]
      | cons y t' =>
          simp only [List.intercalate] at ih ⊢
          rw [List.intersperse_cons₂]
          simp only [List.flatten_cons, List.nil_append]
          rw [ih]
          simp [List.flatten_cons]

lemma joinDocs_length_le (current : List (List Char)) (d : List Char)
    (h : joinDocs [] current = some d) : d.length ≤ sumLen current := by
  simp only [joinDocs] at h
  by_cases he : (pyStrip (List.intercalate [] current)).isEmpty
  · simp [he] at h
  · simp only [he, Bool.false_eq_true, if_false, Option.some.injEq] at h
    subst h
    calc (pyStrip (List.intercalate [] current)).length
        ≤ (List.intercalate [] current).length := pyStrip_length_le _
      _ = current.flatten.length := by rw [intercalate_nil_eq_flatten]
      _ = sumLen current := by simp [sumLen]

lemma popLoop_spec (cs ov dlen : Nat) :
    ∀ (current : List (List Char)) (total : Nat), total = sumLen current →
      (popLoop cs ov 0 dlen current total).2 = sumLen (popLoop cs ov 0 dlen current total).1
      ∧ (popLoop cs ov 0 dlen current total).2 ≤ ov
      ∧ ((popLoop cs ov 0 dlen current total).2 + dlen ≤ cs
          ∨ (popLoop cs ov 0 dlen current total).2 = 0) := by
  intro current
  induction current with
  | nil =>
      intro total ht
      rw [sumLen_nil] at ht
      subst ht
      simp [popLoop, sumLen_nil]
  | cons d0 ds ih =>
      intro total ht
      rw [sumLen_cons] at ht
      by_cases hc : total > ov ∨ (total + dlen + 0 > cs ∧ 0 < total)
      · have hstep : popLoop cs ov 0 dlen (d0 :: ds) total
            = popLoop cs ov 0 dlen ds (total - (d0.length + if ds.isEmpty then 0 else 0)) := by
          simp only [popLoop, if_pos hc]
        rw [hstep]
        apply ih
        have hz : (if ds.isEmpty then 0 else 0) = 0 := ite_self 0
        rw [hz]
        have : 0 ≤ sumLen ds := Nat.zero_le _
        omega
      · have hstep : popLoop cs ov 0 dlen (d0 :: ds) total = (d0 :: ds, total) := by
          simp only [popLoop, if_neg hc]
        rw [hstep]
        push_neg at hc
        obtain ⟨h1, h2⟩ := hc
        refine ⟨by rw [sumLen_cons]; exact ht, by omega, ?_⟩
        rcases Nat.lt_or_ge cs (total + dlen) with hgt | hle2
        · right
          have := h2 (by omega)
          omega
        · left; omega

lemma mergeGo_bound (cs ov : Nat) :
    ∀ (splits docs current : List (List Char)) (total : Nat),
      (∀ s ∈ splits, s.length < cs) → total = sumLen current → total ≤ cs →
      (∀ x ∈ docs, x.length ≤ cs) →
      ∀ d ∈ mergeGo cs ov [] splits docs current total, d.length ≤ cs := by
  intro splits
  induction splits with
  | nil =>
      intro docs current total _ ht hle hd d hmem
      cases hj : joinDocs [] current with
      | none =>
          simp only [mergeGo, hj] at hmem
          exact hd d hmem
      | some j =>
          simp only [mergeGo, hj] at hmem
          rcases List.mem_append.mp hmem with h | h
          · exact hd d h
          · simp only [List.mem_singleton] at h
            have hjl := joinDocs_length_le current j hj
            rw [h]
            omega
  | cons s rest ih =>
      intro docs current total hs ht hle hd d hmem
      have hslen : s.length < cs := hs s (by simp)
      have hrest : ∀ x ∈ rest, x.length < cs := fun x hx => hs x (by simp [hx])
      by_cases hcur : current = []
      · subst hcur
        rw [sumLen_nil] at ht
        subst ht
        have hcond : ¬ (0 + s.length + (if (List.isEmpty ([] : List (List Char))) then 0
            else (List.length ([] : List Char))) > cs) := by
          simp
          omega
        simp only [mergeGo] at hmem
        rw [if_neg hcond] at hmem
        refine ih docs ([] ++ [s]) _ hrest ?_ ?_ hd d hmem
        · simp [sumLen_cons, sumLen_nil]
        · simp
          omega
      · have hce : current.isEmpty = false := List.isEmpty_eq_false.mpr hcur
        simp only [mergeGo, hce, List.length_nil, Bool.false_eq_true, if_false, ite_self,
          Nat.add_zero] at hmem
        split at hmem
        · -- overflow: flush, pop, continue
          rename_i hcond
          obtain ⟨e1, e2, e3⟩ := popLoop_spec cs ov s.length current total ht
          cases hj : joinDocs [] current with
          | none =>
              simp only [hj] at hmem
              refine ih _ _ _ hrest ?_ ?_ hd d hmem
              · rw [sumLen_append, sumLen_cons, sumLen_nil]
                omega
              · omega
          | some j =>
              simp only [hj] at hmem
              have hjl := joinDocs_length_le current j hj
              refine ih _ _ _ hrest ?_ ?_ ?_ d hmem
              · rw [sumLen_append, sumLen_cons, sumLen_nil]
                omega
              · omega
              · intro x hx
                rcases List.mem_append.mp hx with h | h
                · exact hd x h
                · simp only [List.mem_singleton] at h
                  subst h
                  omega
        · -- fits: append to the window
          rename_i hcond
          refine ih docs (current ++ [s]) _ hrest ?_ ?_ hd d hmem
          · rw [sumLen_append, sumLen_cons, sumLen_nil]
            omega
          · omega

lemma processLoop_bound (cs ov : Nat) (recur : Option (List Char → List (List Char)))
    (hrec : ∀ f, recur = some f → ∀ s c, c ∈ f s → c.length ≤ cs) :
    ∀ (splits good : List (List Char)),
      (recur = none → ∀ s ∈ splits, s.length < cs) →
      (∀ g ∈ good, g.length < cs) →
      ∀ c ∈ processLoop cs ov recur splits good, c.length ≤ cs := by
  intro splits
  induction splits with
  | nil =>
      intro good hnone hgood c hc
      by_cases hg : good = []
      · subst hg
        simp [processLoop] at hc
      · have hg' : good.isEmpty = false := List.isEmpty_eq_false.mpr hg
        simp only [processLoop, hg', Bool.false_eq_true, if_false] at hc
        simp only [mergeSplits] at hc
        exact mergeGo_bound cs ov good [] [] 0 hgood sumLen_nil.symm (Nat.zero_le cs)
          (by simp) c hc
  | cons s rest ih =>
      intro good hnone hgood c hc
      by_cases hlen : s.length < cs
      · have hstep : processLoop cs ov recur (s :: rest) good
            = processLoop cs ov recur rest (good ++ [s]) := by
          simp [processLoop, hlen]
        rw [hstep] at hc
        refine ih (good ++ [s]) (fun h x hx => hnone h x (by simp [hx])) ?_ c hc
        intro g hg
        rcases List.mem_append.mp hg with h | h
        · exact hgood g h
        · simp only [List.mem_singleton] at h
          subst h
          exact hlen
      · have hmerged : ∀ x ∈ (if good.isEmpty then []
            else mergeSplits cs ov [] good), x.length ≤ cs := by
          intro x hx
          by_cases hg : good = []
          · subst hg
            simp at hx
          · have hg' : good.isEmpty = false := List.isEmpty_eq_false.mpr hg
            simp only [hg', Bool.false_eq_true, if_false, mergeSplits] at hx
            exact mergeGo_bound cs ov good [] [] 0 hgood sumLen_nil.symm (Nat.zero_le cs)
              (by simp) x hx
        cases recur with
        | some f =>
            have hstep : processLoop cs ov (some f) (s :: rest) good
                = ((if good.isEmpty then [] else mergeSplits cs ov [] good)
                  ++ f s)
                  ++ processLoop cs ov (some f) rest [] := by
              simp [processLoop, hlen]
            rw [hstep] at hc
            rcases List.mem_append.mp hc with h12 | h3
            · rcases List.mem_append.mp h12 with h1 | h2
              · exact hmerged c h1
              · exact hrec f rfl s c h2
            · exact ih [] (fun h x hx => nomatch h) (by simp) c h3
        | none =>
            have hstep : processLoop cs ov none (s :: rest) good
                = ((if good.isEmpty then [] else mergeSplits cs ov [] good)
                  ++ [s])
                  ++ processLoop cs ov none rest [] := by
              simp [processLoop, hlen]
            rw [hstep] at hc
            rcases List.mem_append.mp hc with h12 | h3
            · rcases List.mem_append.mp h12 with h1 | h2
              · exact hmerged c h1
              · simp only [List.mem_singleton] at h2
                subst h2
                exact le_of_lt (hnone rfl c (by simp))
            · exact ih [] (fun h x hx => hnone h x (by simp [hx])) (by simp) c h3

lemma splitWithSep_nil_mem (text : List Char) (s : List Char)
    (h : s ∈ splitWithSep text []) : s.length = 1 := by
  simp only [splitWithSep, List.isEmpty_nil, if_true] at h
  rw [List.mem_filter] at h
  obtain ⟨hm, _⟩ := h
  obtain ⟨c, _, rfl⟩ := List.mem_map.mp hm
  rfl

lemma pickSepGo_cases (text : List Char) (dflt : List Char) :
    ∀ seps : List (List Char), [] ∈ seps →
      pickSepGo text dflt seps = ([], [])
      ∨ ∃ s rest, pickSepGo text dflt seps = (s, rest)
          ∧ [] ∈ rest ∧ rest.length < seps.length := by
  intro seps
  induction seps with
  | nil => intro h; simp at h
  | cons s0 rest ih =>
      intro h
      by_cases h0 : s0.isEmpty
      · left
        simp [pickSepGo, h0]
      · have h0' : s0 ≠ [] := by
          intro he
          rw [he] at h0
          exact h0 rfl
        have hmem : [] ∈ rest := by
          rcases List.mem_cons.mp h with h1 | h1
          · exact absurd h1.symm h0'
          · exact h1
        have h0f : s0.isEmpty = false := List.isEmpty_eq_false.mpr h0'
        by_cases hocc : occursIn s0 text
        · right
          exact ⟨s0, rest, by simp [pickSepGo, h0f, hocc], hmem, by simp⟩
        · have hof : occursIn s0 text = false := by
            exact Bool.not_eq_true _ ▸ eq_false_of_ne_true hocc
          rcases ih hmem with h1 | ⟨s, r, heq, hm, hl⟩
          · left
            simp [pickSepGo, h0f, hof, h1]
          · right
            refine ⟨s, r, ?_, hm, ?_⟩
            · simp [pickSepGo, h0f, hof, heq]
            · simp
              omega

lemma pickSep_cases (text : List Char) (seps : List (List Char)) (h : [] ∈ seps) :
    pickSep text seps = ([], [])
    ∨ ∃ s rest, pickSep text seps = (s, rest) ∧ [] ∈ rest ∧ rest.length < seps.length :=
  pickSepGo_cases text _ seps h

lemma splitTextAuxF_bound (cs ov : Nat) (hcs : 2 ≤ cs) :
    ∀ (fuel : Nat) (seps : List (List Char)) (text : List Char),
      [] ∈ seps → seps.length ≤ fuel →
      ∀ c ∈ splitTextAuxF cs ov fuel seps text, c.length ≤ cs := by
  intro fuel
  induction fuel with
  | zero =>
      intro seps text hmem hlen
      have hs : seps = [] := List.length_eq_zero.mp (Nat.le_zero.mp hlen)
      subst hs
      simp at hmem
  | succ f ih =>
      intro seps text hmem hlen c hc
      rcases pickSep_cases text seps hmem with hpick | ⟨s, rest, hpick, hmemr, hlenr⟩
      · have hstep : splitTextAuxF cs ov (f + 1) seps text
            = processLoop cs ov none (splitWithSep text []) [] := by
          simp [splitTextAuxF, hpick]
        rw [hstep] at hc
        refine processLoop_bound cs ov none (fun f' hf' => nomatch hf')
          (splitWithSep text []) [] ?_ (by simp) c hc
        intro _ x hx
        have := splitWithSep_nil_mem text x hx
        omega
      · have hrne : rest ≠ [] := by
          intro hr
          rw [hr] at hmemr
          simp at hmemr
        have hre : rest.isEmpty = false := List.isEmpty_eq_false.mpr hrne
        have hstep : splitTextAuxF cs ov (f + 1) seps text
            = processLoop cs ov (some fun s' => splitTextAuxF cs ov f rest s')
                (splitWithSep text s) [] := by
          simp [splitTextAuxF, hpick, hre]
        rw [hstep] at hc
        refine processLoop_bound cs ov (some fun s' => splitTextAuxF cs ov f rest s')
          ?_ (splitWithSep text s) [] (fun h => nomatch h) (by simp) c hc
        intro f' hf' s' c' hc'
        have hf'' : (fun s' => splitTextAuxF cs ov f rest s') = f' := by
          injection hf'
        rw [← hf''] at hc'
        exact ih rest s' hmemr (by omega) c' hc'

lemma split_text_bound (text : List Char) :
    ∀ c ∈ split_text text, c.length ≤ chunk_size := by
  intro c hc
  exact splitTextAuxF_bound chunk_size chunk_overlap (by decide) theSeparators.length
    theSeparators text (by decide) (Nat.le_refl _) c hc

set_option maxRecDepth 4000 in
/-- C7 counterexample: on the concrete 1049-character document `exText`
(seven 149-character words separated by single spaces), the configured
splitter produces two consecutive chunks, both at least 200 characters
long, whose 200-character overlap windows disagree: the last 200
characters of the first chunk are not the first 200 characters of the
second chunk, so consecutive chunks do not share exactly
`chunk_overlap = 200` characters of overlap (the overlap here is the
149-character retained word). -/
theorem split_overlap_counterexample :
    (split_text exText).length = 2
    ∧ chunk_overlap ≤ ((split_text exText).getD 0 []).length
    ∧ chunk_overlap ≤ ((split_text exText).getD 1 []).length
    ∧ ¬ (((split_text exText).getD 0 []).drop
            (((split_text exText).getD 0 []).length - chunk_overlap)
          = ((split_text exText).getD 1 []).take chunk_overlap) := by
  decide!

/-- C7 amended: splitting any document with the configured chunk size
C = 1000 and overlap O = 200 produces chunks each of length at most C,
and splitting is deterministic — the chunk sequence is a pure function
of the document text (documents with equal text yield equal chunk
texts); consecutive chunks are not guaranteed to share exactly O
characters of overlap (the realized overlap is made of whole retained
pieces and is typically smaller). -/
theorem split_chunks_bounded :
    (∀ (docs : List Doc) (d : Doc), d ∈ split_documents docs →
        d.page_content.length ≤ chunk_size)
    ∧ ∀ (d d' : Doc), d.page_content = d'.page_content →
        (split_documents [d]).map Doc.page_content
          = (split_documents [d']).map Doc.page_content := by
  constructor
  · intro docs d hd
    simp only [split_documents, List.mem_flatMap] at hd
    obtain ⟨d0, _, hd⟩ := hd
    obtain ⟨c, hc, rfl⟩ := List.mem_map.mp hd
    show (String.mk c).length ≤ chunk_size
    have hlen : (String.mk c).length = c.length := rfl
    rw [hlen]
    exact split_text_bound _ c hc
  · intro d d' hpc
    simp only [split_documents, List.flatMap_cons, List.flatMap_nil, List.append_nil,
      List.map_map]
    rw [hpc]
    rfl

end RagChatbot
